import Mathlib

/-!
Verification of the cds-healpix python boundary layer (src/src/lib.rs).

The file shallowly embeds the marshaling layer: the `u64 -> i64` conversion
helpers `to_i64` and `to_ref_i64`, the coverage-result flatteners `get_cells`
and `get_flat_cells` over a model of the external library's BMOC result, the
row-filling code of `neighbours` and `external_edges_cells`, the vertex
collection of `polygon_search`, and the batch dispatcher. External-library
behaviour that the source merely calls (the BMOC flat iterator, `deep_size`,
the `ndarray` zip shape check, the parallel scheduler) is modelled from the
specification and marked as such in doc comments.
-/

namespace CdsHealpix

/-- Rust cast `v as i64` applied to a `u64` value `v` (represented as a `Nat`
below `2^64`): values below `2^63` are unchanged, larger ones wrap around. -/
def u64_as_i64 (v : Nat) : Int :=
  if v < 2 ^ 63 then (v : Int) else (v : Int) - 2 ^ 64

/-- Embedding of `fn to_i64(val: Option<u64>) -> i64` from src/src/lib.rs:
`Some(val) => val as i64`, `None => -1`. -/
def to_i64 (val : Option Nat) : Int :=
  match val with
  | some v => u64_as_i64 v
  | none => -1

/-- Embedding of `fn to_ref_i64(val: Option<&u64>) -> i64` from src/src/lib.rs:
`Some(&val) => val as i64`, `None => -1`. -/
def to_ref_i64 (val : Option Nat) : Int :=
  match val with
  | some v => u64_as_i64 v
  | none => -1

/-- One cell of a hierarchical coverage result: resolution depth, index value
at that depth, and the full/partial flag. Mirrors the fields `depth`, `hash`
and `is_full` that src/src/lib.rs reads off each BMOC cell. -/
structure Cell where
  depth : Nat
  hash : Nat
  is_full : Bool
  deriving DecidableEq, Repr

/-- Model of the external library's BMOC coverage result consumed by
`get_cells` and `get_flat_cells`: a maximum depth together with the ordered
list of entries the BMOC iterator yields. -/
structure BMOC where
  depth_max : Nat
  entries : List Cell
  deriving DecidableEq, Repr

/-- The fill loop shared by `get_cells` and `get_flat_cells` in
src/src/lib.rs: for each cell `c` of the iterator, push `c.hash`, `c.depth`
and `c.is_full` onto the three output vectors. -/
def push_cells_loop : List Cell → List Nat × List Nat × List Bool → List Nat × List Nat × List Bool
  | [], acc => acc
  | c :: cs, (ipix, depth, full) =>
      push_cells_loop cs (ipix ++ [c.hash], depth ++ [c.depth], full ++ [c.is_full])

/-- Embedding of `fn get_cells(bmoc) -> (Array1<u64>, Array1<u8>, Array1<bool>)`
from src/src/lib.rs: iterate the BMOC entries in native order, pushing each
cell's fields onto three parallel vectors. -/
def get_cells (bmoc : BMOC) : List Nat × List Nat × List Bool :=
  push_cells_loop bmoc.entries ([], [], [])

/-- Capacity reserved by `get_cells` before its fill loop:
`bmoc.entries.len()`. -/
def get_cells_capacity (bmoc : BMOC) : Nat :=
  bmoc.entries.length

/-- Modelled from the spec: the external library's per-cell flat expansion
(not under src/). A cell at level `L` is mechanically subdivided into
`4^(depth_max - L)` leaf-resolution sub-cells, each carrying the source
cell's own full-flag, without re-testing coverage. -/
def flat_cell_expansion (depth_max : Nat) (c : Cell) : List Cell :=
  (List.range (4 ^ (depth_max - c.depth))).map
    (fun k => { depth := depth_max
                hash := c.hash * 4 ^ (depth_max - c.depth) + k
                is_full := c.is_full })

/-- Modelled from the spec: the external library's `bmoc.flat_iter_cell()`
(not under src/), which yields every entry's leaf-resolution expansion, in
the native entry order. -/
def flat_iter_cell (bmoc : BMOC) : List Cell :=
  bmoc.entries.flatMap (flat_cell_expansion bmoc.depth_max)

/-- Modelled from the spec: the external library's `bmoc.deep_size()` (not
under src/), the flat count, i.e. the sum over cells of
`4^(depth_max - cell.depth)`. -/
def deep_size (bmoc : BMOC) : Nat :=
  (bmoc.entries.map (fun c => 4 ^ (bmoc.depth_max - c.depth))).sum

/-- Embedding of `fn get_flat_cells(bmoc)` from src/src/lib.rs: iterate the
flat expansion of the BMOC, pushing each leaf cell's fields onto three
parallel vectors. -/
def get_flat_cells (bmoc : BMOC) : List Nat × List Nat × List Bool :=
  push_cells_loop (flat_iter_cell bmoc) ([], [], [])

/-- Capacity reserved by `get_flat_cells` before its fill loop:
`bmoc.deep_size()`. -/
def get_flat_cells_capacity (bmoc : BMOC) : Nat :=
  deep_size bmoc

/- Characterisation of the shared fill loop. -/

theorem push_cells_loop_eq (cs : List Cell) (a : List Nat) (b : List Nat) (d : List Bool) :
    push_cells_loop cs (a, b, d) =
      (a ++ cs.map Cell.hash, b ++ cs.map Cell.depth, d ++ cs.map Cell.is_full) := by
  induction cs generalizing a b d with
  | nil => simp [push_cells_loop]
  | cons c cs ih => simp [push_cells_loop, ih]

theorem get_cells_eq (bmoc : BMOC) :
    get_cells bmoc =
      (bmoc.entries.map Cell.hash, bmoc.entries.map Cell.depth, bmoc.entries.map Cell.is_full) := by
  simp [get_cells, push_cells_loop_eq]

theorem get_flat_cells_eq (bmoc : BMOC) :
    get_flat_cells bmoc =
      ((flat_iter_cell bmoc).map Cell.hash,
       (flat_iter_cell bmoc).map Cell.depth,
       (flat_iter_cell bmoc).map Cell.is_full) := by
  simp [get_flat_cells, push_cells_loop_eq]

/-- The nine compass directions of the external library's neighbour map
(`healpix::compass_point::MainWind`). -/
inductive MainWind where
  | S | SE | E | SW | C | NE | W | NW | N
  deriving DecidableEq, Repr

/-- The slot each direction occupies in the `neighbours` output row of
src/src/lib.rs: `[S, SE, E, SW, C, NE, W, NW, N]`. -/
def wind_position : MainWind → Nat
  | .S => 0
  | .SE => 1
  | .E => 2
  | .SW => 3
  | .C => 4
  | .NE => 5
  | .W => 6
  | .NW => 7
  | .N => 8

/-- Embedding of the per-index body of `neighbours` in src/src/lib.rs. The
external library's neighbour map for the queried index `p` is the abstract
function `map : MainWind → Option Nat`; the body fills the 9-slot row with
`to_ref_i64` of the eight directional lookups and writes `p as i64` into
slot 4. -/
def neighbours_row (map : MainWind → Option Nat) (p : Nat) : List Int :=
  [to_ref_i64 (map .S),
   to_ref_i64 (map .SE),
   to_ref_i64 (map .E),
   to_ref_i64 (map .SW),
   u64_as_i64 p,
   to_ref_i64 (map .NE),
   to_ref_i64 (map .W),
   to_ref_i64 (map .NW),
   to_ref_i64 (map .N)]

/-- The four corner directions of the external-edge structure
(`healpix::compass_point::Cardinal`). -/
inductive Cardinal where
  | S | E | N | W
  deriving DecidableEq, Repr

/-- The four edge directions of the external-edge structure
(`healpix::compass_point::Ordinal`). -/
inductive Ordinal where
  | SE | NE | NW | SW
  deriving DecidableEq, Repr

/-- Model of the external library's `external_edge_struct` result for one
cell: a possibly-absent corner index per cardinal direction, and an edge
index sequence per ordinal direction. -/
structure ExternalEdges where
  corner : Cardinal → Option Nat
  edge : Ordinal → List Nat

/-- Embedding of the corners-row fill of `external_edges_cells` in
src/src/lib.rs: `c[0..4] = to_i64(get_corner(S, E, N, W))`. -/
def corners_row (ee : ExternalEdges) : List Int :=
  [to_i64 (ee.corner .S),
   to_i64 (ee.corner .E),
   to_i64 (ee.corner .N),
   to_i64 (ee.corner .W)]

/-- Embedding of the edges-row fill of `external_edges_cells` in
src/src/lib.rs: with `num_cells_per_edge = 1 << delta_depth`, copy the first
`num_cells_per_edge` entries of the SE, NE, NW, SW edges in that order at
consecutive offsets `0`, `n`, `2n`, `3n`. -/
def edges_row (delta_depth : Nat) (ee : ExternalEdges) : List Nat :=
  ((ee.edge .SE).take (2 ^ delta_depth))
    ++ ((ee.edge .NE).take (2 ^ delta_depth))
    ++ ((ee.edge .NW).take (2 ^ delta_depth))
    ++ ((ee.edge .SW).take (2 ^ delta_depth))

/-- Embedding of the vertex collection in `polygon_search` of
src/src/lib.rs: `lon.iter().zip(lat.iter()).map(...).collect()`. Rust's
`Iterator::zip`, like `List.zip`, stops at the shorter iterator. -/
def polygon_search_vertices (lon lat : List Float) : List (Float × Float) :=
  lon.zip lat

/-- Embedding of `polygon_search` in src/src/lib.rs, with the external
library's `polygon_coverage` kept abstract as `coverage`: collect the
zipped vertices, run the coverage query, and flatten the result in the
requested mode. The function has no failure path: `Except.error` would model
a Rust panic, and no statement in the body can panic. -/
def polygon_search_run (coverage : List (Float × Float) → BMOC)
    (lon lat : List Float) (flat : Bool) :
    Except String (List Nat × List Nat × List Bool) :=
  let vertices := polygon_search_vertices lon lat
  let bmoc := coverage vertices
  if flat then Except.ok (get_flat_cells bmoc) else Except.ok (get_cells bmoc)

/-- Modelled from the spec and the `ndarray` contract the source relies on
(not under src/): `Zip::from(&mut out).and(&a).and(&b)` asserts that all
three views share one shape and aborts the process otherwise. The per-index
body of `lonlat_to_healpix` writes `hash lon lat` into the output slot. -/
def lonlat_to_healpix (hash : Float → Float → Nat)
    (lon lat : List Float) (ipix_len : Nat) : Except String (List Nat) :=
  if lon.length = ipix_len ∧ lat.length = ipix_len then
    Except.ok ((lon.zip lat).map (fun v => hash v.1 v.2))
  else
    Except.error "Zip: shape mismatch"

/-- How a function of the module returns its results: by filling
caller-allocated buffers passed in, or by handing back host-managed
(Python-owned) arrays built with `into_pyarray`. -/
inductive ReturnKind where
  | writesCallerBuffer
  | managedArrays
  deriving DecidableEq, Repr

/-- The boundary surface of the module: every `pyfn` registered by
`fn cdshealpix` in src/src/lib.rs, with how it returns its results. -/
def module_functions : List (String × ReturnKind) :=
  [("lonlat_to_healpix", .writesCallerBuffer),
   ("healpix_to_lonlat", .writesCallerBuffer),
   ("vertices", .writesCallerBuffer),
   ("neighbours", .writesCallerBuffer),
   ("cone_search", .managedArrays),
   ("elliptical_cone_search", .managedArrays),
   ("polygon_search", .managedArrays),
   ("external_edges_cells", .writesCallerBuffer)]

/-- The coverage-query operations of the module. -/
def coverage_queries : List String :=
  ["cone_search", "elliptical_cone_search", "polygon_search"]

/-- One write of the batch dispatcher: slot `i` of the output view receives
`f` of slot `i` of the input view. Slots are disjoint: a write touches no
other slot. -/
def apply_at {n : Nat} {α β : Type} (f : α → β) (input : Fin n → α)
    (out : Fin n → β) (i : Fin n) : Fin n → β :=
  Function.update out i (f (input i))

/-- Modelled from the spec: the batch dispatcher's execution (the
`par_apply` of the `ndarray-parallel` crate, not under src/) as the per-slot
writes performed in an arbitrary order `sched` chosen by the scheduler. -/
def run_schedule {n : Nat} {α β : Type} (f : α → β) (input : Fin n → α)
    (sched : List (Fin n)) (out : Fin n → β) : Fin n → β :=
  sched.foldl (apply_at f input) out

/-- The sequential execution order: indices `0, 1, ..., n-1` in order. -/
def seq_schedule (n : Nat) : List (Fin n) :=
  List.finRange n

/-- Sequential execution of the batch dispatcher. -/
def seq_apply {n : Nat} {α β : Type} (f : α → β) (input : Fin n → α)
    (out : Fin n → β) : Fin n → β :=
  run_schedule f input (seq_schedule n) out

/- Helper: a slot of the output holds its final value as soon as its own
write has happened, and no later write disturbs it. -/

theorem run_schedule_slot {n : Nat} {α β : Type} (f : α → β) (input : Fin n → α)
    (sched : List (Fin n)) (out : Fin n → β) (i : Fin n)
    (h : i ∈ sched ∨ out i = f (input i)) :
    run_schedule f input sched out i = f (input i) := by
  induction sched generalizing out with
  | nil =>
      rcases h with h | h
      · simp at h
      · simpa [run_schedule] using h
  | cons j rest ih =>
      show run_schedule f input rest (apply_at f input out j) i = f (input i)
      apply ih
      by_cases hij : i = j
      · subst hij
        right
        simp [apply_at]
      · rcases h with h | h
        · rcases List.mem_cons.mp h with h1 | h1
          · exact absurd h1 hij
          · exact Or.inl h1
        · right
          simpa [apply_at, Function.update_noteq hij] using h

/-- C7: for a pure per-index function, the batch dispatcher run under any
schedule that covers every index (the parallel execution writes each output
slot exactly from its own input slot, in some scheduler-chosen order) is
observably equivalent to the sequential run, and both satisfy
output slot i = f applied to input slot i. -/
theorem par_apply_equiv_seq {n : Nat} {α β : Type} (f : α → β) (input : Fin n → α)
    (out : Fin n → β) (sched : List (Fin n)) (hcover : ∀ i : Fin n, i ∈ sched) :
    run_schedule f input sched out = seq_apply f input out
    ∧ ∀ i : Fin n, run_schedule f input sched out i = f (input i) := by
  have hslot : ∀ i : Fin n, run_schedule f input sched out i = f (input i) :=
    fun i => run_schedule_slot f input sched out i (Or.inl (hcover i))
  refine ⟨funext fun i => ?_, hslot⟩
  rw [hslot i]
  exact (run_schedule_slot f input (seq_schedule n) out i
    (Or.inl (List.mem_finRange i))).symm

/-- Witness for C7 at a concrete schedule: two slots written in reversed
order produce the same output as the sequential run. -/
theorem par_apply_equiv_seq_witness :
    run_schedule (fun x : Nat => x + 1) (fun i : Fin 2 => (i : Nat) * 10) [1, 0] (fun _ => 0)
      = seq_apply (fun x : Nat => x + 1) (fun i : Fin 2 => (i : Nat) * 10) (fun _ => 0) :=
  (par_apply_equiv_seq (fun x : Nat => x + 1) (fun i : Fin 2 => (i : Nat) * 10)
    (fun _ => 0) [1, 0] (by decide)).1

/-- C1: in flat mode, a cell of the result set at level L with
max depth D ≥ L contributes exactly 4^(D − L) leaf-resolution entries, every
one carrying the full-flag of the source cell; the full-flag output array of
`get_flat_cells` is exactly the concatenation of these per-cell blocks; and
a cell already at max depth contributes exactly 1 entry. -/
theorem flat_mode_expansion_count (bmoc : BMOC) (c : Cell)
    (hc : c ∈ bmoc.entries) (hd : c.depth ≤ bmoc.depth_max) :
    (flat_cell_expansion bmoc.depth_max c).length = 4 ^ (bmoc.depth_max - c.depth)
    ∧ (∀ x ∈ flat_cell_expansion bmoc.depth_max c, x.is_full = c.is_full)
    ∧ (get_flat_cells bmoc).2.2
        = (bmoc.entries.flatMap (flat_cell_expansion bmoc.depth_max)).map Cell.is_full
    ∧ (c.depth = bmoc.depth_max → (flat_cell_expansion bmoc.depth_max c).length = 1) := by
  refine ⟨?_, ?_, ?_, ?_⟩
  · simp [flat_cell_expansion]
  · intro x hx
    simp only [flat_cell_expansion, List.mem_map] at hx
    obtain ⟨k, _, rfl⟩ := hx
    rfl
  · rw [get_flat_cells_eq]
    simp [flat_iter_cell]
  · intro hEq
    simp [flat_cell_expansion, hEq]

/-- Witness for C1: a single cell at depth 1 under max depth 2 expands to
4 entries, all full. -/
theorem flat_mode_expansion_count_witness :
    (⟨1, 3, true⟩ : Cell) ∈ (⟨2, [⟨1, 3, true⟩]⟩ : BMOC).entries
    ∧ (1 : Nat) ≤ 2
    ∧ ((flat_cell_expansion 2 ⟨1, 3, true⟩).length = 4 ^ (2 - 1)
       ∧ (∀ x ∈ flat_cell_expansion 2 ⟨1, 3, true⟩, x.is_full = (⟨1, 3, true⟩ : Cell).is_full)
       ∧ (get_flat_cells ⟨2, [⟨1, 3, true⟩]⟩).2.2
           = ((⟨2, [⟨1, 3, true⟩]⟩ : BMOC).entries.flatMap (flat_cell_expansion 2)).map Cell.is_full
       ∧ ((⟨1, 3, true⟩ : Cell).depth = 2 → (flat_cell_expansion 2 ⟨1, 3, true⟩).length = 1)) :=
  ⟨by decide, by decide,
   flat_mode_expansion_count ⟨2, [⟨1, 3, true⟩]⟩ ⟨1, 3, true⟩ (by decide) (by decide)⟩

/-- C2: in non-flat mode the three output arrays of `get_cells` each have
length equal to the number of cells of the result set, and the i-th entries
are exactly the i-th cell's index, level and full-flag, in the native entry
order. -/
theorem get_cells_parallel_arrays (bmoc : BMOC) :
    (get_cells bmoc).1.length = bmoc.entries.length
    ∧ (get_cells bmoc).2.1.length = bmoc.entries.length
    ∧ (get_cells bmoc).2.2.length = bmoc.entries.length
    ∧ ∀ i : Nat,
        (get_cells bmoc).1[i]? = (bmoc.entries[i]?).map Cell.hash
        ∧ (get_cells bmoc).2.1[i]? = (bmoc.entries[i]?).map Cell.depth
        ∧ (get_cells bmoc).2.2[i]? = (bmoc.entries[i]?).map Cell.is_full := by
  rw [get_cells_eq]
  refine ⟨by simp, by simp, by simp, fun i => ⟨?_, ?_, ?_⟩⟩ <;>
    simp [List.getElem?_map]

/-- C9: the capacity each flattener reserves before its fill loop (the entry
count for `get_cells`, the deep size for `get_flat_cells`) equals the number
of elements the loop pushes into each of the three output vectors. -/
theorem flattener_capacity_exact (bmoc : BMOC) :
    get_cells_capacity bmoc = (get_cells bmoc).1.length
    ∧ get_cells_capacity bmoc = (get_cells bmoc).2.1.length
    ∧ get_cells_capacity bmoc = (get_cells bmoc).2.2.length
    ∧ get_flat_cells_capacity bmoc = (get_flat_cells bmoc).1.length
    ∧ get_flat_cells_capacity bmoc = (get_flat_cells bmoc).2.1.length
    ∧ get_flat_cells_capacity bmoc = (get_flat_cells bmoc).2.2.length := by
  rw [get_cells_eq, get_flat_cells_eq]
  have hdeep : deep_size bmoc = (flat_iter_cell bmoc).length := by
    have hfg : (List.length ∘ flat_cell_expansion bmoc.depth_max)
        = fun c : Cell => 4 ^ (bmoc.depth_max - c.depth) :=
      funext fun c => by simp [Function.comp, flat_cell_expansion]
    simp [deep_size, flat_iter_cell, List.length_flatMap, hfg]
  refine ⟨by simp [get_cells_capacity], by simp [get_cells_capacity],
    by simp [get_cells_capacity], ?_, ?_, ?_⟩ <;>
    simp [get_flat_cells_capacity, hdeep]

/-- C10: the conversion helpers send absence to −1 and a present value v to
v cast to signed 64-bit, so below 2^63 the output is v itself and
non-negative, under that precondition negativity characterises absence, and
from 2^63 on the cast wraps to a negative value. -/
theorem to_i64_sentinel_characterisation :
    to_i64 none = -1
    ∧ to_ref_i64 none = -1
    ∧ (∀ v : Nat, v < 2 ^ 63 →
        to_i64 (some v) = (v : Int) ∧ 0 ≤ to_i64 (some v) ∧ to_ref_i64 (some v) = (v : Int))
    ∧ (∀ o : Option Nat, (∀ v : Nat, o = some v → v < 2 ^ 63) → (to_i64 o < 0 ↔ o = none))
    ∧ (∀ v : Nat, 2 ^ 63 ≤ v → v < 2 ^ 64 → to_i64 (some v) < 0) := by
  refine ⟨rfl, rfl, fun v hv => ?_, fun o ho => ?_, fun v hv1 hv2 => ?_⟩
  · simp only [to_i64, to_ref_i64, u64_as_i64, if_pos hv]
    exact ⟨trivial, Int.natCast_nonneg v, trivial⟩
  · match o with
    | none => simp [to_i64]
    | some v =>
        have hv := ho v rfl
        simp only [to_i64, u64_as_i64, if_pos hv]
        constructor
        · intro hlt
          exact absurd hlt (by omega)
        · intro hcontra
          exact absurd hcontra (by simp)
  · have : ¬ v < 2 ^ 63 := by omega
    simp only [to_i64, u64_as_i64, if_neg this]
    have : (v : Int) < 2 ^ 64 := by exact_mod_cast hv2
    omega

/-- Witness for C10 at concrete values: 5 converts to 5, absence to −1, and
2^63 wraps negative. -/
theorem to_i64_sentinel_characterisation_witness :
    to_i64 (some 5) = 5 ∧ to_i64 none = -1 ∧ to_i64 (some (2 ^ 63)) < 0 :=
  ⟨(to_i64_sentinel_characterisation.2.2.1 5 (by norm_num)).1,
   to_i64_sentinel_characterisation.1,
   to_i64_sentinel_characterisation.2.2.2.2 (2 ^ 63) (le_refl _) (by norm_num)⟩

/-- C5: the neighbours row has 9 slots; every non-center direction d is
written at its fixed position (S, SE, E, SW at 0–3, NE, W, NW, N at 5–8) as
`to_ref_i64` of the library lookup, and a direction with no neighbour gets
the sentinel −1 at its position. -/
theorem neighbours_row_layout (map : MainWind → Option Nat) (p : Nat) :
    (neighbours_row map p).length = 9
    ∧ (∀ d : MainWind, d ≠ .C →
        (neighbours_row map p)[wind_position d]? = some (to_ref_i64 (map d)))
    ∧ (∀ d : MainWind, d ≠ .C → map d = none →
        (neighbours_row map p)[wind_position d]? = some (-1)) := by
  refine ⟨rfl, fun d hd => ?_, fun d hd habs => ?_⟩
  · cases d <;> simp [neighbours_row, wind_position] <;> exact absurd rfl hd
  · cases d <;>
      first
        | exact absurd rfl hd
        | simp [neighbours_row, wind_position, habs, to_ref_i64]

/-- Witness for C5 at a map with no neighbours: slot 0 (direction S) holds
the sentinel −1, and the row has 9 slots. -/
theorem neighbours_row_layout_witness :
    (neighbours_row (fun _ => none) 0).length = 9
    ∧ (neighbours_row (fun _ => none) 0)[wind_position .S]? = some (-1) :=
  ⟨(neighbours_row_layout (fun _ => none) 0).1,
   (neighbours_row_layout (fun _ => none) 0).2.2 .S (by decide) rfl⟩

/-- C6 counterexample: at the queried index 2^64 − 1 (a value of the caller's
u64 input array), the `p as i64` write makes slot 4 equal the sentinel −1,
which is not the queried index. -/
theorem neighbours_center_slot_counterexample :
    (neighbours_row (fun _ => none) (2 ^ 64 - 1))[4]? = some (-1)
    ∧ ((2 ^ 64 - 1 : Nat) : Int) ≠ -1 := by
  constructor
  · norm_num [neighbours_row, u64_as_i64]
  · norm_num

/-- C6 amended: for every queried index below 2^63 — which covers every
index the external library accepts, since valid indices are below
12 · 4^29 — slot 4 of the neighbours row equals the queried index itself and
is never the absent sentinel. -/
theorem neighbours_center_slot (map : MainWind → Option Nat) (p : Nat)
    (hp : p < 2 ^ 63) :
    (neighbours_row map p)[4]? = some ((p : Int))
    ∧ (neighbours_row map p)[4]? ≠ some (-1) := by
  have h4 : (neighbours_row map p)[4]? = some (u64_as_i64 p) := rfl
  have hval : u64_as_i64 p = (p : Int) := by simp only [u64_as_i64, if_pos hp]
  refine ⟨by rw [h4, hval], ?_⟩
  rw [h4, hval]
  intro hcontra
  have : (p : Int) = -1 := by simpa using hcontra
  omega

/-- Witness for C6 amended at index 7: slot 4 holds 7. -/
theorem neighbours_center_slot_witness :
    (neighbours_row (fun _ => none) 7)[4]? = some ((7 : Nat) : Int)
    ∧ (neighbours_row (fun _ => none) 7)[4]? ≠ some (-1) :=
  neighbours_center_slot (fun _ => none) 7 (by norm_num)

/-- C8: the corners row of `external_edges_cells` is exactly the 4 corner
conversions in the fixed order S, E, N, W, with −1 for an absent corner, and
when the library hands back edges of length 2^Δ the edges row is exactly the
4 edge sequences in the fixed order SE, NE, NW, SW, contiguous and without
gaps, of total length 4 · 2^Δ. -/
theorem external_edges_layout (delta_depth : Nat) (ee : ExternalEdges)
    (h : ∀ o : Ordinal, (ee.edge o).length = 2 ^ delta_depth) :
    (corners_row ee).length = 4
    ∧ (corners_row ee)[0]? = some (to_i64 (ee.corner .S))
    ∧ (corners_row ee)[1]? = some (to_i64 (ee.corner .E))
    ∧ (corners_row ee)[2]? = some (to_i64 (ee.corner .N))
    ∧ (corners_row ee)[3]? = some (to_i64 (ee.corner .W))
    ∧ (∀ c : Cardinal, ee.corner c = none → to_i64 (ee.corner c) = -1)
    ∧ (edges_row delta_depth ee).length = 4 * 2 ^ delta_depth
    ∧ edges_row delta_depth ee
        = ee.edge .SE ++ ee.edge .NE ++ ee.edge .NW ++ ee.edge .SW := by
  have htake : ∀ o : Ordinal, (ee.edge o).take (2 ^ delta_depth) = ee.edge o :=
    fun o => by rw [← h o]; exact List.take_length _
  have hrow : edges_row delta_depth ee
      = ee.edge .SE ++ ee.edge .NE ++ ee.edge .NW ++ ee.edge .SW := by
    simp [edges_row, htake]
  refine ⟨rfl, rfl, rfl, rfl, rfl, fun c habs => by simp [to_i64, habs], ?_, hrow⟩
  rw [hrow]
  simp [h]
  ring

/-- Witness for C8 with Δ = 0 and one-element edges. -/
theorem external_edges_layout_witness :
    (corners_row ⟨fun _ => none, fun _ => [7]⟩).length = 4
    ∧ (corners_row ⟨fun _ => none, fun _ => [7]⟩)[0]?
        = some (to_i64 ((⟨fun _ => none, fun _ => [7]⟩ : ExternalEdges).corner .S))
    ∧ (corners_row ⟨fun _ => none, fun _ => [7]⟩)[1]?
        = some (to_i64 ((⟨fun _ => none, fun _ => [7]⟩ : ExternalEdges).corner .E))
    ∧ (corners_row ⟨fun _ => none, fun _ => [7]⟩)[2]?
        = some (to_i64 ((⟨fun _ => none, fun _ => [7]⟩ : ExternalEdges).corner .N))
    ∧ (corners_row ⟨fun _ => none, fun _ => [7]⟩)[3]?
        = some (to_i64 ((⟨fun _ => none, fun _ => [7]⟩ : ExternalEdges).corner .W))
    ∧ (∀ c : Cardinal, (⟨fun _ => none, fun _ => [7]⟩ : ExternalEdges).corner c = none →
        to_i64 ((⟨fun _ => none, fun _ => [7]⟩ : ExternalEdges).corner c) = -1)
    ∧ (edges_row 0 ⟨fun _ => none, fun _ => [7]⟩).length = 4 * 2 ^ 0
    ∧ edges_row 0 ⟨fun _ => none, fun _ => [7]⟩ = [7] ++ [7] ++ [7] ++ [7] :=
  external_edges_layout 0 ⟨fun _ => none, fun _ => [7]⟩ (fun o => by cases o <;> rfl)

/-- C3 counterexample: `polygon_search` called with lon of length 2 and lat
of length 1 — mismatched buffer lengths — does not abort: the vertex list is
silently truncated to a single vertex and the query completes normally,
returning `ok` with one cell per surviving vertex. -/
theorem polygon_search_mismatch_counterexample :
    ([0, 1] : List Float).length ≠ ([0] : List Float).length
    ∧ (polygon_search_vertices [0, 1] [0]).length = 1
    ∧ polygon_search_run (fun vs => ⟨0, vs.map (fun _ => ⟨0, 0, true⟩)⟩) [0, 1] [0] false
        = Except.ok ([0], [0], [true]) :=
  ⟨by decide, rfl, rfl⟩

/-- C3 amended: the per-element batch operations built on the ndarray zip
(such as `lonlat_to_healpix`) abort on a buffer-length mismatch, but
`polygon_search` does not: it zips lon and lat down to the shorter length
and completes over the truncated vertex list. -/
theorem buffer_length_mismatch (hash : Float → Float → Nat)
    (lon lat : List Float) (n : Nat)
    (h : ¬(lon.length = n ∧ lat.length = n)) :
    lonlat_to_healpix hash lon lat n = Except.error "Zip: shape mismatch"
    ∧ (polygon_search_vertices lon lat).length = min lon.length lat.length
    ∧ ∀ (coverage : List (Float × Float) → BMOC) (flat : Bool),
        ∃ r, polygon_search_run coverage lon lat flat = Except.ok r := by
  refine ⟨by simp [lonlat_to_healpix, h], by simp [polygon_search_vertices], ?_⟩
  intro coverage flat
  cases flat
  · exact ⟨_, rfl⟩
  · exact ⟨_, rfl⟩

/-- Witness for C3 amended at lon of length 2, lat of length 1, output
length 1. -/
theorem buffer_length_mismatch_witness :
    lonlat_to_healpix (fun _ _ => 0) [0, 1] [0] 1 = Except.error "Zip: shape mismatch"
    ∧ (polygon_search_vertices [0, 1] [0]).length
        = min ([0, 1] : List Float).length ([0] : List Float).length :=
  ⟨(buffer_length_mismatch (fun _ _ => 0) [0, 1] [0] 1 (by decide)).1,
   (buffer_length_mismatch (fun _ _ => 0) [0, 1] [0] 1 (by decide)).2.1⟩

/-- C4 counterexample: the module's boundary surface contains the three
coverage queries but no release operation at all, so no coverage query has
an unmanaged-handle form with a paired release. -/
theorem no_release_operation_counterexample :
    ((module_functions.map Prod.fst).contains "release") = false
    ∧ ((module_functions.map Prod.fst).contains "cone_search") = true := by
  decide

/-- C4 amended: every coverage query of the module returns host-managed
(Python-owned) arrays, and no function of the boundary surface is a release
operation; there is no unmanaged-handle form and hence no acquire/release
pairing obligation. -/
theorem coverage_queries_managed (f : String × ReturnKind)
    (hf : f ∈ module_functions) :
    f.1 ≠ "release"
    ∧ (f.1 ∈ coverage_queries → f.2 = ReturnKind.managedArrays) := by
  fin_cases hf <;> refine ⟨by decide, fun hq => ?_⟩ <;> first
    | rfl
    | exact absurd hq (by decide)

/-- Witness for C4 amended at `cone_search`. -/
theorem coverage_queries_managed_witness :
    ("cone_search", ReturnKind.managedArrays).1 ≠ "release"
    ∧ (("cone_search", ReturnKind.managedArrays).1 ∈ coverage_queries →
        ("cone_search", ReturnKind.managedArrays).2 = ReturnKind.managedArrays) :=
  coverage_queries_managed ("cone_search", ReturnKind.managedArrays) (by decide)

end CdsHealpix
